import Mathlib

/-!
Verification development for the zo-worker-swarm task orchestration core.

The definitions below are shallow embeddings of the Python source:
* `src/src/task_parser.py` — task definitions, dependency validation, batch scheduling
* `src/src/hooks/dependency_checker.py` — readiness gate over the event log
* `src/src/hooks/status_formatter.py` — status projection from the event log
* `src/src/event_logger.py` — event log reading
* `src/src/ssh_executor.py` — batch execution

Python dictionaries with optional keys are modelled with `Option` fields
(`none` models a missing key, `d.get(k, default)` becomes `Option.getD`).
Exceptions become `Except`; printed diagnostics become explicit log values.
External effects (the remote SSH command, the wall clock) are parameters.
-/

set_option maxHeartbeats 1000000

namespace ZoSwarm

/-- Embeds the `TaskDefinition` dataclass of `src/src/task_parser.py`
(fields and defaults as in the Python source). -/
structure TaskDefinition where
  name : String
  ccr_instance : String
  command : String
  prompt : String
  timeout : Int := 300
  dependencies : List String := []
  tags : List String := []
  description : String := ""
  output_file : Option String := none
  deriving DecidableEq

/-- A raw task dictionary as fed to `TaskParser.parse_tasks`
(each field `none` when the key is absent from the Python dict). -/
structure TaskDict where
  name : Option String := none
  ccr_instance : Option String := none
  command : Option String := none
  prompt : Option String := none
  timeout : Option Int := none
  dependencies : Option (List String) := none
  tags : Option (List String) := none
  description : Option String := none
  output_file : Option String := none
  deriving DecidableEq

/-- The distinct `ValueError`s raised by `TaskDefinition.__post_init__`,
modelled structurally (the Python messages carry the same data). -/
inductive ParseErr where
  | missingName (index : Nat)
  | missingInstance (name : String)
  | missingCommandOrPrompt (name : String)
  deriving DecidableEq

/-- Embeds the construction of one `TaskDefinition` inside
`TaskParser.parse_tasks` (defaults applied by `dict.get`) followed by the
`__post_init__` validation, which raises `ValueError` on an empty name,
empty `ccr_instance`, or a task with neither command nor prompt. -/
def mkTaskDefinition (index : Nat) (d : TaskDict) : Except ParseErr TaskDefinition :=
  let nm := d.name.getD ("Task-" ++ toString (index + 1))
  let inst := d.ccr_instance.getD "general"
  let cmd := d.command.getD ""
  let prm := d.prompt.getD ""
  if nm = "" then .error (.missingName index)
  else if inst = "" then .error (.missingInstance nm)
  else if cmd = "" ∧ prm = "" then .error (.missingCommandOrPrompt nm)
  else .ok { name := nm, ccr_instance := inst, command := cmd, prompt := prm,
             timeout := d.timeout.getD 300,
             dependencies := d.dependencies.getD [],
             tags := d.tags.getD [],
             description := d.description.getD "",
             output_file := d.output_file }

/-- Helper for `parse_tasks`, carrying the running index.  A task whose
construction raises is caught (`except Exception ... continue` in the
source): the error is printed (collected in the second component) and the
task is skipped. -/
def parseTasksAux : Nat → List TaskDict → List TaskDefinition × List ParseErr
  | _, [] => ([], [])
  | i, d :: rest =>
    let r := parseTasksAux (i + 1) rest
    match mkTaskDefinition i d with
    | .ok t => (t :: r.1, r.2)
    | .error e => (r.1, e :: r.2)

/-- Embeds `TaskParser.parse_tasks`: returns the successfully parsed tasks
together with the per-task errors that were printed and swallowed. -/
def parse_tasks (tasks_data : List TaskDict) : List TaskDefinition × List ParseErr :=
  parseTasksAux 0 tasks_data

/-- The task names of a list of tasks (the Python `{task.name for task in tasks}`;
only membership is ever used, so a list models the set). -/
def taskNames (tasks : List TaskDefinition) : List String :=
  tasks.map (·.name)

/-- The offending `(task name, missing dependency)` pairs printed by
`TaskParser.validate_dependencies`, in iteration order. -/
def depErrors (tasks : List TaskDefinition) : List (String × String) :=
  tasks.flatMap (fun t =>
    (t.dependencies.filter (fun d => !((taskNames tasks).contains d))).map
      (fun d => (t.name, d)))

/-- Embeds `TaskParser.validate_dependencies`: the printed diagnostics and
the returned `all_valid` boolean. -/
def validate_dependencies (tasks : List TaskDefinition) : List (String × String) × Bool :=
  (depErrors tasks, (depErrors tasks).isEmpty)

/-- The failures of `TaskParser.get_execution_order`, modelled structurally:
`invalidDeps` is the `ValueError("Invalid task dependencies")`, and `cycle`
carries the remaining task names embedded in the circular-dependency
message.  `fuelExhausted` is an artifact of the fuelled loop below and is
proved unreachable for the entry-point fuel. -/
inductive SchedError where
  | invalidDeps
  | cycle (remaining : List String)
  | fuelExhausted
  deriving DecidableEq

/-- `completed.add(name)` on the Python set, modelled on a duplicate-free
list: append the name when it is new. -/
def addName (completed : List String) (n : String) : List String :=
  if completed.contains n then completed else completed ++ [n]

/-- The readiness test inside the scheduling loop: not yet completed, and
every dependency already completed. -/
def isReady (completed : List String) (t : TaskDefinition) : Bool :=
  !completed.contains t.name && t.dependencies.all completed.contains

/-- The `ready_tasks` list collected in one round of the scheduling loop
(original input order preserved, as in the source). -/
def readyOf (completed : List String) (tasks : List TaskDefinition) : List TaskDefinition :=
  tasks.filter (isReady completed)

/-- The `while len(completed) < len(tasks)` loop of
`TaskParser.get_execution_order`.  Each productive round adds at least one
name to `completed`, so fuel `tasks.length` always suffices; the fuel case
is a termination artifact, not source behaviour. -/
def schedLoop (tasks : List TaskDefinition) :
    Nat → List String → List (List TaskDefinition) →
    Except SchedError (List (List TaskDefinition))
  | 0, completed, batches =>
    if completed.length < tasks.length then .error .fuelExhausted else .ok batches
  | fuel + 1, completed, batches =>
    if completed.length < tasks.length then
      if (readyOf completed tasks).isEmpty then
        .error (.cycle ((tasks.filter (fun t => !completed.contains t.name)).map (·.name)))
      else
        schedLoop tasks fuel
          ((readyOf completed tasks).foldl (fun c t => addName c t.name) completed)
          (batches ++ [readyOf completed tasks])
    else
      .ok batches

/-- Embeds `TaskParser.get_execution_order`: dependency validation first
(its printed diagnostics in the first component), then the batching loop. -/
def get_execution_order (tasks : List TaskDefinition) :
    List (String × String) × Except SchedError (List (List TaskDefinition)) :=
  let v := validate_dependencies tasks
  if v.2 then (v.1, schedLoop tasks tasks.length [] []) else (v.1, .error .invalidDeps)

/-- One round of growth of the `completed` set (used to name the point at
which the scheduling loop gets stuck). -/
def stepCompleted (tasks : List TaskDefinition) (completed : List String) : List String :=
  (readyOf completed tasks).foldl (fun c t => addName c t.name) completed

/-- Iterated rounds of `stepCompleted`. -/
def iterCompleted (tasks : List TaskDefinition) : Nat → List String → List String
  | 0, c => c
  | n + 1, c => iterCompleted tasks n (stepCompleted tasks c)

/-- The `completed` set at the point where the scheduling loop can make no
further progress (iterating one round per task saturates). -/
def stuckCompleted (tasks : List TaskDefinition) : List String :=
  iterCompleted tasks tasks.length []

/-- The task names still unscheduled when the ready set becomes empty:
exactly the list embedded in the circular-dependency error. -/
def stuckRemaining (tasks : List TaskDefinition) : List String :=
  (tasks.filter (fun t => !(stuckCompleted tasks).contains t.name)).map (·.name)

/-- Acyclicity of the dependency graph of a task list: some ranking of
names strictly decreases along every dependency edge.  For a finite graph
this is equivalent to the absence of dependency cycles. -/
def Acyclic (tasks : List TaskDefinition) : Prop :=
  ∃ rank : String → Nat, ∀ t ∈ tasks, ∀ d ∈ t.dependencies, rank d < rank t.name

/-- The index of the first batch containing a task with the given name
(`batches.length` when none does); used to build a topological ranking
out of a successful schedule. -/
def batchIndexOf (batches : List (List TaskDefinition)) (n : String) : Nat :=
  match batches with
  | [] => 0
  | b :: rest => if b.any (fun u => u.name == n) then 0 else batchIndexOf rest n + 1

/-- What a successful run of the scheduling loop started at completed set
`c` guarantees about the batches it appends: every task not yet completed
is placed in some batch; batches hold only tasks, not yet completed, with
every dependency either already completed or placed in a strictly earlier
batch; and distinct batches never repeat a task name. -/
def BatchesSpec (tasks : List TaskDefinition) (c : List String)
    (suffix : List (List TaskDefinition)) : Prop :=
  (∀ t ∈ tasks, t.name ∉ c → ∃ i, ∃ hi : i < suffix.length, t ∈ suffix.get ⟨i, hi⟩) ∧
  (∀ i (hi : i < suffix.length), ∀ t ∈ suffix.get ⟨i, hi⟩,
    t ∈ tasks ∧ t.name ∉ c ∧
    ∀ d ∈ t.dependencies, d ∈ c ∨
      ∃ j, ∃ hj : j < suffix.length, j < i ∧ ∃ u ∈ suffix.get ⟨j, hj⟩, u.name = d) ∧
  (∀ i (hi : i < suffix.length) j (hj : j < suffix.length), i < j →
    ∀ t ∈ suffix.get ⟨i, hi⟩, ∀ u ∈ suffix.get ⟨j, hj⟩, t.name ≠ u.name)

/-- An event record, as read back from one line of `events.jsonl`.  The
readers access fields with `event.get(key)`, so every field is optional
(`none` models a missing key). -/
structure Event where
  worker_id : Option String := none
  type : Option String := none
  status : Option String := none
  percent : Option Int := none
  message : Option String := none
  path : Option String := none
  timestamp : Option String := none
  deriving DecidableEq

/-- One line of the event log as the readers see it after `line.strip()`
and `json.loads`: blank, unparsable, or a parsed record.  Which of the
three a raw line is, is decided by the (external) JSON library; the
readers only branch on the outcome, which is what is modelled. -/
inductive LogLine where
  | blank
  | malformed
  | record (e : Event)
  deriving DecidableEq

/-- The parsed records of a list of log lines, in file order (blank and
malformed lines skipped, as every reader in the source does). -/
def parsedRecords (lines : List LogLine) : List Event :=
  lines.filterMap (fun l => match l with
    | .blank => none
    | .malformed => none
    | .record e => some e)

/-- The timestamp entry of a decoded JSON object, as the `since` filter of
`EventLogger.read_events` distinguishes it: the key is absent (the default
`""` is compared), holds a JSON string, or holds any non-string JSON value
— comparing the latter against the string `since` raises `TypeError`. -/
inductive JsonTs where
  | missing
  | str (s : String)
  | nonString
  deriving DecidableEq

/-- One stripped line of `events.jsonl` as the control flow of
`EventLogger.read_events` distinguishes it: empty (skipped before
parsing), a line on which `json.loads` raises `JSONDecodeError` (the only
exception the reader catches), a line holding valid JSON that is *not* an
object — `event.get` on it raises `AttributeError` once the `since`
filter is evaluated — or a JSON object with its timestamp entry.  The
payload `α` stands for the decoded value, which the reader never
inspects beyond the timestamp. -/
inductive RawLine (α : Type) where
  | blank
  | decodeError
  | nonObject (value : α)
  | object (timestamp : JsonTs) (value : α)
  deriving DecidableEq

/-- The uncaught Python exceptions `read_events` can raise from inside its
`try` block (whose `except` clause catches only `json.JSONDecodeError`). -/
inductive PyError where
  | attributeError
  | typeError
  deriving DecidableEq

/-- An element of the list `read_events` returns: a decoded JSON object,
or a valid-JSON non-object value (appended as-is when no `since` filter is
active). -/
inductive ReadValue (α : Type) where
  | record (timestamp : JsonTs) (value : α)
  | nonRecord (value : α)
  deriving DecidableEq

/-- The per-line loop of `EventLogger.read_events`.  Mirrors
`if since and event.get("timestamp", "") <= since: continue` including its
short-circuit (a falsy `since` — `None` or `""` — never evaluates
`event.get`, so non-object lines are then appended, not skipped) and its
uncaught exceptions: `AttributeError` from `event.get` on a non-object,
`TypeError` from comparing a non-string timestamp with the string
`since`.  An exception aborts the whole read. -/
def readLines {α : Type} (since : Option String) :
    List (RawLine α) → Except PyError (List (ReadValue α))
  | [] => .ok []
  | l :: rest =>
    let tail := readLines since rest
    match l with
    | .blank => tail
    | .decodeError => tail
    | .nonObject v =>
      match since with
      | none => tail.map (fun es => ReadValue.nonRecord v :: es)
      | some s =>
        if s = "" then tail.map (fun es => ReadValue.nonRecord v :: es)
        else .error .attributeError
    | .object ts v =>
      match since with
      | none => tail.map (fun es => ReadValue.record ts v :: es)
      | some s =>
        if s = "" then tail.map (fun es => ReadValue.record ts v :: es)
        else
          match ts with
          | .nonString => .error .typeError
          | .missing =>
            if ("" : String) ≤ s then tail
            else tail.map (fun es => ReadValue.record .missing v :: es)
          | .str t =>
            if t ≤ s then tail
            else tail.map (fun es => ReadValue.record (.str t) v :: es)

/-- Embeds `EventLogger.read_events`.  The file argument is `none` when
`events.jsonl` does not exist (the early `return events` with the empty
list); otherwise the lines are processed in file order. -/
def read_events {α : Type} (file : Option (List (RawLine α))) (since : Option String) :
    Except PyError (List (ReadValue α)) :=
  match file with
  | none => .ok []
  | some lines => readLines since lines

/-- One task entry of `plan.json` as the hook scripts read it:
`task["id"]` is accessed directly (required), `task.get("dependencies", [])`
is optional. -/
structure PlanTask where
  id : String
  dependencies : Option (List String) := none
  deriving DecidableEq

/-- The plan document as the hook scripts read it (`plan.get("tasks", [])`). -/
structure Plan where
  tasks : Option (List PlanTask) := none
  deriving DecidableEq

/-- Embeds `DependencyChecker._get_completed_tasks`: the worker ids of
every `done` event with `status == "success"` (a Python set; only
membership is used, so a list models it).  A missing file contributes
nothing. -/
def get_completed_tasks (file : Option (List LogLine)) : List (Option String) :=
  match file with
  | none => []
  | some lines =>
    (parsedRecords lines).filterMap (fun e =>
      if e.type == some "done" && e.status == some "success" then some e.worker_id else none)

/-- Embeds `DependencyChecker._get_started_tasks`: the worker ids of every
`start` event. -/
def get_started_tasks (file : Option (List LogLine)) : List (Option String) :=
  match file with
  | none => []
  | some lines =>
    (parsedRecords lines).filterMap (fun e =>
      if e.type == some "start" then some e.worker_id else none)

/-- Embeds `DependencyChecker._check_task_dependencies`: all declared
dependencies are in the completed set. -/
def check_task_dependencies (t : PlanTask) (completed : List (Option String)) : Bool :=
  (t.dependencies.getD []).all (fun d => completed.contains (some d))

/-- Embeds `DependencyChecker.get_ready_tasks`.  The plan argument is
`none` when `plan.json` does not exist (the `FileNotFoundError` branch). -/
def get_ready_tasks (events : Option (List LogLine)) (plan : Option Plan) : List String :=
  match plan with
  | none => []
  | some pl =>
    let completed := get_completed_tasks events
    let started := get_started_tasks events
    ((pl.tasks.getD []).filter (fun t =>
        !(started.contains (some t.id) || completed.contains (some t.id)) &&
        check_task_dependencies t completed)).map (·.id)

/-- The per-task record built by `StatusFormatter.get_detailed_status`. -/
structure StatusDetail where
  status : String
  progress : Int
  message : String
  deriving DecidableEq

/-- The events of one worker, in log order (`[e for e in events if
e.get("worker_id") == task_id]`). -/
def eventsFor (events : List Event) (task_id : String) : List Event :=
  events.filter (fun e => e.worker_id == some task_id)

/-- The branch of `StatusFormatter.get_detailed_status` that projects one
task id from the event list: the literal last event for the id decides the
state. -/
def detailedStatusFor (events : List Event) (task_id : String) : StatusDetail :=
  match (eventsFor events task_id).getLast? with
  | none => { status := "waiting", progress := 0, message := "Not started" }
  | some latest =>
    if latest.type == some "done" then
      { status := "done", progress := 100, message := "Completed successfully" }
    else if latest.type == some "error" then
      { status := "error", progress := 0, message := latest.message.getD "Error occurred" }
    else if latest.type == some "progress" then
      { status := "running", progress := latest.percent.getD 0,
        message := latest.message.getD "In progress" }
    else if latest.type == some "start" then
      { status := "running", progress := 0, message := "Started" }
    else
      { status := "unknown", progress := 0, message := "Unknown status" }

/-- Embeds `StatusFormatter.get_detailed_status` over a plan (the
per-worker map, keyed in plan order). -/
def get_detailed_status (events : List Event) (plan : Option Plan) :
    Option (List (String × StatusDetail)) :=
  match plan with
  | none => none
  | some pl => some ((pl.tasks.getD []).map (fun t => (t.id, detailedStatusFor events t.id)))

/-- `StatusFormatter._format_running`. -/
def formatRunning (percent : Int) : String := "⏳ " ++ toString percent ++ "%"

/-- `StatusFormatter._format_done`. -/
def formatDone : String := "✓ done"

/-- `StatusFormatter._format_error`. -/
def formatError : String := "✗ error"

/-- `StatusFormatter._format_waiting`. -/
def formatWaiting : String := "⏸ waiting"

/-- One step of the dictionary update in `StatusFormatter._build_status_map`
(the dict is modelled as a lookup function; keys are raw `worker_id`
values, which may be missing). -/
def statusMapStep (m : Option String → Option String) (e : Event) :
    Option String → Option String :=
  if e.type == some "start" then
    fun k => if k = e.worker_id then some (formatRunning 0) else m k
  else if e.type == some "progress" then
    fun k => if k = e.worker_id then some (formatRunning (e.percent.getD 0)) else m k
  else if e.type == some "done" then
    fun k => if k = e.worker_id then some formatDone else m k
  else if e.type == some "error" then
    fun k => if k = e.worker_id then some formatError else m k
  else m

/-- Embeds `StatusFormatter._build_status_map`: fold the update over the
events in log order, starting from the empty dict. -/
def build_status_map (events : List Event) : Option String → Option String :=
  events.foldl statusMapStep (fun _ => none)

/-- The outcome of the one external effect of `SSHExecutor.execute_task`:
the awaited subprocess either completes with a return code and captured
output, exceeds `task.timeout` (the `asyncio.TimeoutError` branch), or
raises some other exception. -/
inductive ProcOutcome where
  | completed (returncode : Int) (stdout : String) (stderr : String)
  | timedOut
  | raised (msg : String)
  deriving DecidableEq

/-- Embeds the `TaskResult` dataclass of `src/src/ssh_executor.py`
(timestamps modelled as integers supplied by the environment). -/
structure TaskResult where
  task_name : String
  status : String
  output : String
  error : String
  duration_seconds : Int
  start_time : Int
  end_time : Int
  ccr_instance : String
  ccr_port : Int
  deriving DecidableEq

/-- Embeds `SSHExecutor.execute_task`: how one subprocess outcome is turned
into a `TaskResult`.  A timeout records status `"timeout"`; any other
exception records `"failed"`; otherwise the return code decides
success/failure. -/
def execute_task (outcome : ProcOutcome) (start_time end_time : Int)
    (task : TaskDefinition) (ccr_port : Int) : TaskResult :=
  let r : String × String × String :=
    match outcome with
    | .completed rc out err => (out, err, if rc = 0 then "success" else "failed")
    | .timedOut => ("", "Task timed out after " ++ toString task.timeout ++ " seconds", "timeout")
    | .raised m => ("", "Exception during execution: " ++ m, "failed")
  { task_name := task.name, status := r.2.2, output := r.1, error := r.2.1,
    duration_seconds := end_time - start_time, start_time := start_time,
    end_time := end_time, ccr_instance := task.ccr_instance, ccr_port := ccr_port }

/-- `ccr_ports.get(task.ccr_instance)`: the port registry as an
association list. -/
def lookupPort (ports : List (String × Int)) (inst : String) : Option Int :=
  (ports.find? (fun p => p.1 == inst)).map (·.2)

/-- The environment of a run: what the external world (subprocess and wall
clock) returns for each task and port.  Quantifying theorems over it
covers every pattern of success, failure and timeout. -/
structure ExecEnv where
  outcome : TaskDefinition → Int → ProcOutcome
  startTime : TaskDefinition → Int
  endTime : TaskDefinition → Int

/-- The tasks of a batch that `SSHExecutor.execute_batch` actually
launches, paired with their ports: a task whose `ccr_instance` has no
entry in `ccr_ports` is skipped with a printed error (`continue`). -/
def mappedTasks (tasks : List TaskDefinition) (ports : List (String × Int)) :
    List (TaskDefinition × Int) :=
  tasks.filterMap (fun t => (lookupPort ports t.ccr_instance).map (fun p => (t, p)))

/-- Embeds `SSHExecutor.execute_batch`: one result per launched task, in
order (`asyncio.gather` preserves argument order). -/
def execute_batch (env : ExecEnv) (tasks : List TaskDefinition)
    (ports : List (String × Int)) : List TaskResult :=
  (mappedTasks tasks ports).map (fun tp =>
    execute_task (env.outcome tp.1 tp.2) (env.startTime tp.1) (env.endTime tp.1) tp.1 tp.2)

/-- Embeds `SSHExecutor.execute_all_batches`: batches are awaited strictly
in order and the loop never breaks early — every batch is executed
regardless of failures in earlier batches. -/
def execute_all_batches (env : ExecEnv) (batches : List (List TaskDefinition))
    (ports : List (String × Int)) : List TaskResult :=
  batches.foldl (fun acc b => acc ++ execute_batch env b ports) []

/-- An observable action of a run, for stating the batch-barrier property:
a task is launched in a batch, or its awaited result is collected. -/
inductive ExecAction where
  | launch (batch : Nat) (task : String)
  | finish (batch : Nat) (task : String) (status : String)
  deriving DecidableEq

/-- The batch index an action belongs to. -/
def ExecAction.batchIdx : ExecAction → Nat
  | .launch b _ => b
  | .finish b _ _ => b

/-- The action trace of one batch: all launches (the fan-out of
`asyncio.gather`), then all collected results (its join).  The join of
`gather` returns only once every awaited task has finished — success,
failure or timeout — which is the barrier this trace makes explicit. -/
def batchTrace (env : ExecEnv) (ports : List (String × Int)) (i : Nat)
    (tasks : List TaskDefinition) : List ExecAction :=
  (mappedTasks tasks ports).map (fun tp => ExecAction.launch i tp.1.name) ++
  (mappedTasks tasks ports).map (fun tp =>
    ExecAction.finish i tp.1.name
      (execute_task (env.outcome tp.1 tp.2) (env.startTime tp.1) (env.endTime tp.1)
        tp.1 tp.2).status)

/-- The action trace of `execute_all_batches`, batch by batch, starting at
batch index `i`. -/
def allBatchesTrace (env : ExecEnv) (ports : List (String × Int)) :
    Nat → List (List TaskDefinition) → List ExecAction
  | _, [] => []
  | i, b :: rest => batchTrace env ports i b ++ allBatchesTrace env ports (i + 1) rest

/-! ## Concrete fixtures for example instantiations -/

/-- A task with no dependencies. -/
def taskA : TaskDefinition where
  name := "A"
  ccr_instance := "general"
  command := "build"
  prompt := ""

/-- A task depending on `taskA`. -/
def taskB : TaskDefinition where
  name := "B"
  ccr_instance := "general"
  command := "test"
  prompt := ""
  dependencies := ["A"]

/-- A second no-dependency task that duplicates the name of `taskA`. -/
def taskA2 : TaskDefinition where
  name := "A"
  ccr_instance := "general"
  command := "lint"
  prompt := ""

/-- Task `A` of the two-cycle `A → B`, `B → A`. -/
def taskAcyc : TaskDefinition where
  name := "A"
  ccr_instance := "general"
  command := "build"
  prompt := ""
  dependencies := ["B"]

/-- Task `B` of the two-cycle `A → B`, `B → A`. -/
def taskBcyc : TaskDefinition where
  name := "B"
  ccr_instance := "general"
  command := "test"
  prompt := ""
  dependencies := ["A"]

/-- A task referencing a dependency id absent from any task set it is put
in alone. -/
def taskBdangling : TaskDefinition := taskB

/-- A `start` event for worker `w1`. -/
def evStartW1 : Event where
  worker_id := some "w1"
  type := some "start"
  timestamp := some "2026-01-01T00:00:00Z"

/-- A `progress(50)` event for worker `w1`. -/
def evProgressW1 : Event where
  worker_id := some "w1"
  type := some "progress"
  percent := some 50
  message := some "halfway"
  timestamp := some "2026-01-01T00:01:00Z"

/-- A `done(success)` event for worker `w1`. -/
def evDoneW1 : Event where
  worker_id := some "w1"
  type := some "done"
  status := some "success"
  timestamp := some "2026-01-01T00:02:00Z"

/-- An `artifact` event for worker `w1`. -/
def evArtifactW1 : Event where
  worker_id := some "w1"
  type := some "artifact"
  path := some "out.txt"
  timestamp := some "2026-01-01T00:03:00Z"

/-- A `done(failed)` event for worker `w1`. -/
def evDoneFailedW1 : Event where
  worker_id := some "w1"
  type := some "done"
  status := some "failed"
  timestamp := some "2026-01-01T00:02:00Z"

/-- A plan with the single task `w1` and no dependencies. -/
def planW1 : Plan := { tasks := some [{ id := "w1" }] }

/-- An event log holding only `done(w1, failed)`. -/
def eventsDoneFailedOnly : Option (List LogLine) := some [LogLine.record evDoneFailedW1]

/-- A task routed to the `fast` instance. -/
def taskFast : TaskDefinition where
  name := "F"
  ccr_instance := "fast"
  command := "build"
  prompt := ""

/-- An execution environment in which every subprocess completes with
return code 0 instantly. -/
def envAllSucceed : ExecEnv where
  outcome := fun _ _ => .completed 0 "" ""
  startTime := fun _ => 0
  endTime := fun _ => 0

/-- A port registry binding only the `general` instance. -/
def portsGeneral : List (String × Int) := [("general", 3456)]

/-- `ccr_ports.get(task.ccr_instance)` with the default port 0 (used only
where the lookup is known to succeed). -/
def portOrZero (ports : List (String × Int)) (t : TaskDefinition) : Int :=
  (lookupPort ports t.ccr_instance).getD 0

/-- The records of an optional event file (a missing file has none). -/
def parsedEvents (file : Option (List LogLine)) : List Event :=
  match file with
  | none => []
  | some lines => parsedRecords lines

/-! ## General helper lemmas -/

/-- Pigeonhole for duplicate-free lists: a `Nodup` list is no longer than
any list containing it. -/
theorem nodup_subset_length_le {α : Type} [DecidableEq α] {l l2 : List α}
    (h : l.Nodup) (hs : l ⊆ l2) : l.length ≤ l2.length := by
  have h1 : l.toFinset.card = l.length := List.toFinset_card_of_nodup h
  have h2 : l.toFinset ⊆ l2.toFinset := by
    intro x hx
    simp only [List.mem_toFinset] at hx ⊢
    exact hs hx
  calc l.length = l.toFinset.card := h1.symm
    _ ≤ l2.toFinset.card := Finset.card_le_card h2
    _ ≤ l2.length := l2.toFinset_card_le

/-- Every nonempty list has an element minimizing any `Nat`-valued image. -/
theorem exists_min_image {α : Type} (f : α → Nat) :
    ∀ (l : List α), l ≠ [] → ∃ a ∈ l, ∀ b ∈ l, f a ≤ f b
  | [], h => absurd rfl h
  | a :: l, _ => by
    cases l with
    | nil => exact ⟨a, List.mem_singleton_self a, by simp⟩
    | cons b t =>
      obtain ⟨m, hm, hmin⟩ := exists_min_image f (b :: t) (by simp)
      by_cases hle : f a ≤ f m
      · refine ⟨a, List.mem_cons_self a _, ?_⟩
        intro c hc
        rcases List.mem_cons.1 hc with rfl | hc
        · exact Nat.le_refl _
        · exact Nat.le_trans hle (hmin c hc)
      · refine ⟨m, List.mem_cons_of_mem _ hm, ?_⟩
        intro c hc
        rcases List.mem_cons.1 hc with rfl | hc
        · exact Nat.le_of_lt (Nat.lt_of_not_le hle)
        · exact hmin c hc

/-! ## Lemmas about dependency validation -/

/-- Characterization of the diagnostics of `validate_dependencies`: the
pairs are exactly the (task name, unresolved dependency) pairs. -/
theorem mem_depErrors {tasks : List TaskDefinition} {nm d : String} :
    (nm, d) ∈ depErrors tasks ↔
      ∃ t ∈ tasks, t.name = nm ∧ d ∈ t.dependencies ∧ d ∉ taskNames tasks := by
  simp only [depErrors, List.mem_flatMap, List.mem_map, List.mem_filter,
    Bool.not_eq_true', List.elem_eq_mem, decide_eq_false_iff_not, Prod.mk.injEq]
  constructor
  · rintro ⟨t, ht, d', ⟨hd', hnc⟩, rfl, rfl⟩
    exact ⟨t, ht, rfl, hd', hnc⟩
  · rintro ⟨t, ht, rfl, hd, hnm⟩
    exact ⟨t, ht, d, ⟨hd, hnm⟩, rfl, rfl⟩

/-! ## Claim theorems -/

/-- Claim C3 (evidence of the code bug): at the failing input — a task
dictionary with a name but neither command nor prompt — `parse_tasks`
returns a (here empty) list of parsed tasks together with the swallowed
validation error, instead of aborting: the malformed task is skipped and
no exception escapes, contradicting the documented fatal `ValueError`. -/
theorem parse_tasks_swallows_validation_error :
    parse_tasks [{ name := some "t1" }] = ([], [ParseErr.missingCommandOrPrompt "t1"]) := by
  rfl

/-- Claim C5: when some task references a dependency id naming no task in
the set, `get_execution_order` fails with the invalid-dependencies error
before any batching, and the validation diagnostics list exactly the
offending (task, missing id) pairs. -/
theorem missing_dependency_fails_before_batching
    (tasks : List TaskDefinition)
    (h : ∃ t ∈ tasks, ∃ d ∈ t.dependencies, d ∉ taskNames tasks) :
    (get_execution_order tasks).2 = .error .invalidDeps ∧
    (get_execution_order tasks).1 = depErrors tasks ∧
    depErrors tasks ≠ [] ∧
    (∀ nm d, (nm, d) ∈ depErrors tasks ↔
      ∃ t ∈ tasks, t.name = nm ∧ d ∈ t.dependencies ∧ d ∉ taskNames tasks) := by
  obtain ⟨t, ht, d, hd, hnm⟩ := h
  have hmem : (t.name, d) ∈ depErrors tasks := mem_depErrors.2 ⟨t, ht, rfl, hd, hnm⟩
  have hne : depErrors tasks ≠ [] := List.ne_nil_of_mem hmem
  have hfalse : (depErrors tasks).isEmpty = false := by
    simpa [List.isEmpty_iff] using hne
  refine ⟨?_, ?_, hne, fun nm d => mem_depErrors⟩
  · simp [get_execution_order, validate_dependencies, hfalse]
  · simp [get_execution_order, validate_dependencies, hfalse]

/-- Witness for C5: a lone task depending on the absent id `"A"` gets
rejected before batching. -/
theorem missing_dependency_fails_before_batching_witness :
    (get_execution_order [taskBdangling]).2 = .error .invalidDeps ∧
    (get_execution_order [taskBdangling]).1 = depErrors [taskBdangling] ∧
    depErrors [taskBdangling] ≠ [] ∧
    (∀ nm d, (nm, d) ∈ depErrors [taskBdangling] ↔
      ∃ t ∈ [taskBdangling], t.name = nm ∧ d ∈ t.dependencies ∧
        d ∉ taskNames [taskBdangling]) :=
  missing_dependency_fails_before_batching _ (by decide)

/-- A `JSONDecodeError` line is skipped without affecting the processing
of the surrounding lines — this is the one exception `read_events`
catches. -/
theorem readLines_decodeError_skip {α : Type} (since : Option String) :
    ∀ (pre post : List (RawLine α)),
      readLines since (pre ++ RawLine.decodeError :: post) =
        readLines since (pre ++ post)
  | [], _ => rfl
  | l :: pre, post => by
    simp only [List.cons_append, readLines, List.append_eq]
    rw [readLines_decodeError_skip since pre post]

/-- Claim C7 (evidence of the code bug): `read_events` catches only
`JSONDecodeError`, so reading is not exception-free for every file
content.  A valid-JSON non-object line (here `42`) raises an uncaught
`AttributeError` from `event.get` once a `since` filter is active — and
with no filter the line is appended, not skipped — and an object whose
timestamp entry is not a string raises `TypeError` on the `<= since`
comparison.  The parts of the claim the source does honour also hold: a
missing file reads as empty, and a `JSONDecodeError` line is skipped
without affecting the surrounding lines. -/
theorem read_events_error_paths :
    read_events (some [RawLine.nonObject (42 : Int)]) (some "2026-01-02T00:00:00Z") =
      .error .attributeError ∧
    read_events (some [RawLine.object JsonTs.nonString (7 : Int)])
      (some "2026-01-02T00:00:00Z") = .error .typeError ∧
    read_events (some [RawLine.nonObject (42 : Int)]) none =
      .ok [ReadValue.nonRecord (42 : Int)] ∧
    (∀ (α : Type) (since : Option String),
      read_events (none : Option (List (RawLine α))) since = .ok []) ∧
    (∀ (α : Type) (pre post : List (RawLine α)) (since : Option String),
      read_events (some (pre ++ RawLine.decodeError :: post)) since =
        read_events (some (pre ++ post)) since) := by
  refine ⟨rfl, rfl, rfl, fun α since => rfl, fun α pre post since => ?_⟩
  exact readLines_decodeError_skip since pre post

/-! ## Lemmas about the status projection -/

/-- Changing only timestamps commutes with the per-worker filter. -/
theorem eventsFor_map_timestamp (events : List Event) (id : String)
    (f : Event → Option String) :
    eventsFor (events.map (fun e => { e with timestamp := f e })) id =
      (eventsFor events id).map (fun e => { e with timestamp := f e }) := by
  simp only [eventsFor, List.filter_map]
  rfl

/-- An event whose type matches none of the four handled kinds leaves the
status map unchanged; in particular `artifact` events do. -/
theorem statusMapStep_artifact {m : Option String → Option String} {e : Event}
    (h : e.type = some "artifact") : statusMapStep m e = m := by
  simp [statusMapStep, h]

/-- `_build_status_map` computes the same dictionary whether or not the
`artifact` events are present. -/
theorem foldl_statusMapStep_filter_artifact (events : List Event) :
    ∀ m : Option String → Option String,
      events.foldl statusMapStep m =
        (events.filter (fun e => !(e.type == some "artifact"))).foldl statusMapStep m := by
  induction events with
  | nil => intro m; rfl
  | cons e rest ih =>
    intro m
    by_cases h : e.type = some "artifact"
    · have hfilter : (e :: rest).filter (fun e => !(e.type == some "artifact")) =
          rest.filter (fun e => !(e.type == some "artifact")) := by
        simp [List.filter_cons, h]
      rw [hfilter, List.foldl_cons, statusMapStep_artifact h]
      exact ih m
    · have hfilter : (e :: rest).filter (fun e => !(e.type == some "artifact")) =
          e :: rest.filter (fun e => !(e.type == some "artifact")) := by
        simp [List.filter_cons, h]
      rw [hfilter, List.foldl_cons, List.foldl_cons]
      exact ih (statusMapStep m e)

/-- Claim C6: the detailed status projection assigns each task id the state
of the literal last event for that id in log order — `waiting` when there
is none, `done`/`error` from a terminal last event, `running` with the
event's percent (0 for a bare `start`) otherwise — and the projection is
invariant under arbitrary changes of the timestamp values. -/
theorem detailed_status_projects_last_event (events : List Event) (id : String) :
    ((eventsFor events id).getLast? = none →
      detailedStatusFor events id = ⟨"waiting", 0, "Not started"⟩) ∧
    (∀ e, (eventsFor events id).getLast? = some e →
      (e.type = some "done" →
        detailedStatusFor events id = ⟨"done", 100, "Completed successfully"⟩) ∧
      (e.type = some "error" →
        detailedStatusFor events id = ⟨"error", 0, e.message.getD "Error occurred"⟩) ∧
      (e.type = some "progress" →
        detailedStatusFor events id =
          ⟨"running", e.percent.getD 0, e.message.getD "In progress"⟩) ∧
      (e.type = some "start" →
        detailedStatusFor events id = ⟨"running", 0, "Started"⟩)) ∧
    (∀ f : Event → Option String,
      detailedStatusFor (events.map (fun e => { e with timestamp := f e })) id =
        detailedStatusFor events id) := by
  refine ⟨?_, ?_, ?_⟩
  · intro h
    simp [detailedStatusFor, h]
  · intro e he
    refine ⟨fun ht => ?_, fun ht => ?_, fun ht => ?_, fun ht => ?_⟩ <;>
      simp [detailedStatusFor, he, ht]
  · intro f
    rw [detailedStatusFor, detailedStatusFor, eventsFor_map_timestamp, List.getLast?_map]
    cases (eventsFor events id).getLast? with
    | none => rfl
    | some e => rfl

/-- Witness for C6 at the spec's example: after `[start, progress(50),
done(success)]` worker `w1` projects as `done`, and timestamps are
irrelevant. -/
theorem detailed_status_projects_last_event_witness :
    detailedStatusFor [evStartW1, evProgressW1, evDoneW1] "w1" =
      ⟨"done", 100, "Completed successfully"⟩ ∧
    detailedStatusFor [] "w1" = ⟨"waiting", 0, "Not started"⟩ :=
  ⟨((detailed_status_projects_last_event [evStartW1, evProgressW1, evDoneW1] "w1").2.1
      evDoneW1 (by decide)).1 (by decide),
   (detailed_status_projects_last_event [] "w1").1 (by decide)⟩

/-- Claim C10: the two status output forms diverge on `artifact` events —
the compact status map ignores artifact events entirely (so a task whose
last event is `artifact` shows its most recent start/progress/done/error
state), while the detailed projection reports `unknown` with progress 0
for such a task. -/
theorem artifact_events_divergence :
    (∀ (events : List Event) (k : Option String),
      build_status_map events k =
        build_status_map (events.filter (fun e => !(e.type == some "artifact"))) k) ∧
    (∀ (events : List Event) (id : String) (e : Event),
      (eventsFor events id).getLast? = some e → e.type = some "artifact" →
      detailedStatusFor events id = ⟨"unknown", 0, "Unknown status"⟩) := by
  constructor
  · intro events k
    rw [build_status_map, build_status_map, foldl_statusMapStep_filter_artifact]
  · intro events id e he ht
    simp [detailedStatusFor, he, ht]

/-- Witness for C10: with events `[start(w1), artifact(w1)]` the compact
map still shows `w1` as running at 0%, while the detailed projection
reports `unknown`. -/
theorem artifact_events_divergence_witness :
    build_status_map [evStartW1, evArtifactW1] (some "w1") = some (formatRunning 0) ∧
    detailedStatusFor [evStartW1, evArtifactW1] "w1" = ⟨"unknown", 0, "Unknown status"⟩ :=
  ⟨(artifact_events_divergence.1 [evStartW1, evArtifactW1] (some "w1")).trans (by rfl),
   artifact_events_divergence.2 [evStartW1, evArtifactW1] "w1" evArtifactW1
     (by decide) (by decide)⟩

/-! ## Lemmas about the readiness gate -/

/-- Membership in the completed set of the dependency checker. -/
theorem mem_get_completed_tasks {file : Option (List LogLine)} {x : Option String} :
    x ∈ get_completed_tasks file ↔
      ∃ e ∈ parsedEvents file, e.type = some "done" ∧ e.status = some "success" ∧
        e.worker_id = x := by
  cases file with
  | none => simp [get_completed_tasks, parsedEvents]
  | some lines =>
    simp only [get_completed_tasks, parsedEvents, List.mem_filterMap,
      Option.ite_none_right_eq_some, Bool.and_eq_true, beq_iff_eq, Option.some.injEq]
    constructor
    · rintro ⟨e, he, ⟨ht, hs⟩, hw⟩
      exact ⟨e, he, ht, hs, hw⟩
    · rintro ⟨e, he, ht, hs, hw⟩
      exact ⟨e, he, ⟨ht, hs⟩, hw⟩

/-- Membership in the started set of the dependency checker. -/
theorem mem_get_started_tasks {file : Option (List LogLine)} {x : Option String} :
    x ∈ get_started_tasks file ↔
      ∃ e ∈ parsedEvents file, e.type = some "start" ∧ e.worker_id = x := by
  cases file with
  | none => simp [get_started_tasks, parsedEvents]
  | some lines =>
    simp only [get_started_tasks, parsedEvents, List.mem_filterMap,
      Option.ite_none_right_eq_some, beq_iff_eq, Option.some.injEq]

/-- The filter predicate of `get_ready_tasks`, as a proposition. -/
theorem ready_pred_iff {events : Option (List LogLine)} {t : PlanTask} :
    (!((get_started_tasks events).contains (some t.id) ||
        (get_completed_tasks events).contains (some t.id)) &&
      check_task_dependencies t (get_completed_tasks events)) = true ↔
    (some t.id ∉ get_started_tasks events ∧ some t.id ∉ get_completed_tasks events ∧
      ∀ d ∈ t.dependencies.getD [], some d ∈ get_completed_tasks events) := by
  simp [check_task_dependencies, and_assoc, not_or]

/-- Claim C2, amended: the ready tasks are exactly the plan task ids with
no `start` event, no `done` event with status `success`, and all declared
dependencies having a `done` event with status `success` somewhere in the
log (so a dependency whose only `done` event carries a failure status
never satisfies the gate). -/
theorem ready_tasks_membership (events : Option (List LogLine)) (plan : Option Plan)
    (id : String) :
    id ∈ get_ready_tasks events plan ↔
      ∃ pl, plan = some pl ∧ ∃ t ∈ pl.tasks.getD [], t.id = id ∧
        (¬ ∃ e ∈ parsedEvents events, e.type = some "start" ∧ e.worker_id = some id) ∧
        (¬ ∃ e ∈ parsedEvents events, e.type = some "done" ∧ e.status = some "success" ∧
          e.worker_id = some id) ∧
        (∀ d ∈ t.dependencies.getD [], ∃ e ∈ parsedEvents events, e.type = some "done" ∧
          e.status = some "success" ∧ e.worker_id = some d) := by
  cases plan with
  | none => simp [get_ready_tasks]
  | some pl =>
    constructor
    · intro hmem
      simp only [get_ready_tasks] at hmem
      obtain ⟨t, htf, rfl⟩ := List.mem_map.1 hmem
      obtain ⟨ht, hp⟩ := List.mem_filter.1 htf
      obtain ⟨h1, h2, h3⟩ := ready_pred_iff.1 hp
      refine ⟨pl, rfl, t, ht, rfl, ?_, ?_, ?_⟩
      · exact fun hex => h1 (mem_get_started_tasks.2 hex)
      · exact fun hex => h2 (mem_get_completed_tasks.2 hex)
      · exact fun d hd => mem_get_completed_tasks.1 (h3 d hd)
    · rintro ⟨pl', hpl, t, ht, hid, hns, hnc, hdeps⟩
      obtain rfl : pl = pl' := by injection hpl
      subst hid
      simp only [get_ready_tasks]
      refine List.mem_map.2 ⟨t, List.mem_filter.2 ⟨ht, ready_pred_iff.2 ⟨?_, ?_, ?_⟩⟩, rfl⟩
      · exact fun hmem => hns (mem_get_started_tasks.1 hmem)
      · exact fun hmem => hnc (mem_get_completed_tasks.1 hmem)
      · exact fun d hd => mem_get_completed_tasks.2 (hdeps d hd)

/-- Counterexample to claim C2 as stated: with the single event
`done(w1, failed)` and no `start` event, `w1` *has* already emitted a
`done` event, yet `get_ready_tasks` still returns it — only a `start`
event or a successful `done` excludes a task. -/
theorem ready_tasks_claim_counterexample :
    get_ready_tasks eventsDoneFailedOnly (some planW1) = ["w1"] ∧
    (∃ e ∈ parsedEvents eventsDoneFailedOnly,
      e.worker_id = some "w1" ∧ e.type = some "done") := by
  constructor
  · decide
  · decide

/-! ## Lemmas about the batch executor -/

/-- Every action of one batch's trace carries that batch's index. -/
theorem batchTrace_batchIdx {env : ExecEnv} {ports : List (String × Int)} {i : Nat}
    {tasks : List TaskDefinition} {a : ExecAction}
    (h : a ∈ batchTrace env ports i tasks) : a.batchIdx = i := by
  simp only [batchTrace, List.mem_append, List.mem_map] at h
  rcases h with ⟨tp, _, rfl⟩ | ⟨tp, _, rfl⟩ <;> rfl

/-- Actions of the trace starting at batch `i0` carry indices `≥ i0`. -/
theorem allBatchesTrace_batchIdx_ge {env : ExecEnv} {ports : List (String × Int)} :
    ∀ {bs : List (List TaskDefinition)} {i0 : Nat} {a : ExecAction},
      a ∈ allBatchesTrace env ports i0 bs → i0 ≤ a.batchIdx
  | [], _, a, h => by simp [allBatchesTrace] at h
  | b :: rest, i0, a, h => by
    simp only [allBatchesTrace, List.mem_append] at h
    rcases h with h | h
    · exact Nat.le_of_eq (batchTrace_batchIdx h).symm
    · exact Nat.le_of_succ_le (allBatchesTrace_batchIdx_ge h)

/-- Positions in the concatenated trace are ordered by batch index: an
action of a strictly earlier batch occurs at a strictly earlier
position. -/
theorem allBatchesTrace_index_mono {env : ExecEnv} {ports : List (String × Int)} :
    ∀ (bs : List (List TaskDefinition)) (i0 k1 k2 : Nat) (a1 a2 : ExecAction),
      (allBatchesTrace env ports i0 bs).get? k1 = some a1 →
      (allBatchesTrace env ports i0 bs).get? k2 = some a2 →
      a1.batchIdx < a2.batchIdx → k1 < k2
  | [], _, k1, _, _, _, h1, _, _ => by simp [allBatchesTrace] at h1
  | b :: rest, i0, k1, k2, a1, a2, h1, h2, hlt => by
    simp only [allBatchesTrace] at h1 h2
    by_cases hk1 : k1 < (batchTrace env ports i0 b).length
    · by_cases hk2 : k2 < (batchTrace env ports i0 b).length
      · rw [List.get?_append hk1] at h1
        rw [List.get?_append hk2] at h2
        have e1 : a1.batchIdx = i0 := batchTrace_batchIdx (List.get?_mem h1)
        have e2 : a2.batchIdx = i0 := batchTrace_batchIdx (List.get?_mem h2)
        omega
      · omega
    · push_neg at hk1
      rw [List.get?_append_right hk1] at h1
      by_cases hk2 : k2 < (batchTrace env ports i0 b).length
      · rw [List.get?_append hk2] at h2
        have e2 : a2.batchIdx = i0 := batchTrace_batchIdx (List.get?_mem h2)
        have g1 : i0 + 1 ≤ a1.batchIdx := allBatchesTrace_batchIdx_ge (List.get?_mem h1)
        omega
      · push_neg at hk2
        rw [List.get?_append_right hk2] at h2
        have := allBatchesTrace_index_mono rest (i0 + 1)
          (k1 - (batchTrace env ports i0 b).length)
          (k2 - (batchTrace env ports i0 b).length) a1 a2 h1 h2 hlt
        omega

/-- Every port-mapped task of every batch is launched in the trace,
whatever the outcomes elsewhere are. -/
theorem launch_mem_allBatchesTrace {env : ExecEnv} {ports : List (String × Int)} :
    ∀ (bs : List (List TaskDefinition)) (i0 i : Nat) (hi : i < bs.length)
      (t : TaskDefinition) (p : Int),
      t ∈ bs.get ⟨i, hi⟩ → lookupPort ports t.ccr_instance = some p →
      ExecAction.launch (i0 + i) t.name ∈ allBatchesTrace env ports i0 bs
  | b :: _, i0, 0, _, t, p, ht, hp => by
    simp only [Nat.add_zero, allBatchesTrace, List.mem_append]
    left
    simp only [batchTrace, List.mem_append]
    left
    refine List.mem_map.2 ⟨(t, p), ?_, rfl⟩
    exact List.mem_filterMap.2 ⟨t, ht, by rw [hp]; rfl⟩
  | _ :: rest, i0, i + 1, hi, t, p, ht, hp => by
    simp only [allBatchesTrace, List.mem_append]
    right
    have h := @launch_mem_allBatchesTrace env ports rest (i0 + 1) i
      (Nat.lt_of_succ_lt_succ hi) t p ht hp
    have heq : i0 + 1 + i = i0 + (i + 1) := by omega
    rwa [heq] at h

/-- Claim C8: the batch barrier — in the trace of `execute_all_batches`,
every collected result of batch `i` precedes every launch of batch `j`
whenever `i < j` (batch `j` never starts while batch `i` is outstanding),
and every port-mapped task of every batch is launched regardless of the
outcomes (failures and timeouts in earlier batches never halt
progression). -/
theorem batch_barrier_and_progression (env : ExecEnv) (ports : List (String × Int))
    (batches : List (List TaskDefinition)) :
    (∀ k1 k2 i j t1 t2 s,
      (allBatchesTrace env ports 0 batches).get? k1 = some (.finish i t1 s) →
      (allBatchesTrace env ports 0 batches).get? k2 = some (.launch j t2) →
      i < j → k1 < k2) ∧
    (∀ i (hi : i < batches.length) (t : TaskDefinition) (p : Int),
      t ∈ batches.get ⟨i, hi⟩ → lookupPort ports t.ccr_instance = some p →
      ExecAction.launch i t.name ∈ allBatchesTrace env ports 0 batches) := by
  constructor
  · intro k1 k2 i j t1 t2 s h1 h2 hij
    exact allBatchesTrace_index_mono batches 0 k1 k2 (.finish i t1 s) (.launch j t2) h1 h2 hij
  · intro i hi t p ht hp
    have h := @launch_mem_allBatchesTrace env ports batches 0 i hi t p ht hp
    simpa using h

/-- Witness for C8: with two singleton batches `[[A], [B]]`, the result of
batch 0 (position 1) precedes the launch of batch 1 (position 2), and
task `B` of batch 1 is launched. -/
theorem batch_barrier_and_progression_witness :
    (1 : Nat) < 2 ∧
    ExecAction.launch 1 "B" ∈ allBatchesTrace envAllSucceed portsGeneral 0 [[taskA], [taskB]] :=
  ⟨(batch_barrier_and_progression envAllSucceed portsGeneral [[taskA], [taskB]]).1
      1 2 0 1 "A" "B" "success" (by rfl) (by rfl) (by decide),
   (batch_barrier_and_progression envAllSucceed portsGeneral [[taskA], [taskB]]).2
      1 (by decide) taskB 3456 (by decide) (by decide)⟩

/-- Under a total port mapping, the launched tasks are exactly the batch's
tasks, in order, with their looked-up ports. -/
theorem mappedTasks_of_total :
    ∀ (tasks : List TaskDefinition) (ports : List (String × Int)),
      (∀ t ∈ tasks, (lookupPort ports t.ccr_instance).isSome = true) →
      mappedTasks tasks ports = tasks.map (fun t => (t, portOrZero ports t))
  | [], _, _ => rfl
  | t :: rest, ports, h => by
    obtain ⟨p, hp⟩ := Option.isSome_iff_exists.1 (h t (List.mem_cons_self t rest))
    have ih := mappedTasks_of_total rest ports (fun u hu => h u (List.mem_cons_of_mem t hu))
    simp only [mappedTasks, List.filterMap_cons] at ih ⊢
    rw [hp]
    simp only [Option.map_some', List.map_cons]
    rw [ih]
    have hport : portOrZero ports t = p := by simp [portOrZero, hp]
    rw [hport]

/-- Claim C9, amended: executing a batch collects exactly one `TaskResult`
per task whose `ccr_instance` has a port mapping, in order; each result
records the task's name, its `ccr_instance` and the port that handled it;
and an execution that exceeds its timeout is recorded with status
`"timeout"`. -/
theorem batch_results_per_mapped_task (env : ExecEnv) (tasks : List TaskDefinition)
    (ports : List (String × Int))
    (h : ∀ t ∈ tasks, (lookupPort ports t.ccr_instance).isSome = true) :
    execute_batch env tasks ports =
      tasks.map (fun t => execute_task (env.outcome t (portOrZero ports t))
        (env.startTime t) (env.endTime t) t (portOrZero ports t)) ∧
    (execute_batch env tasks ports).length = tasks.length ∧
    (∀ (t : TaskDefinition) (p : Int) (out : ProcOutcome) (s e : Int),
      (execute_task out s e t p).task_name = t.name ∧
      (execute_task out s e t p).ccr_instance = t.ccr_instance ∧
      (execute_task out s e t p).ccr_port = p) ∧
    (∀ (t : TaskDefinition) (p : Int) (s e : Int),
      (execute_task ProcOutcome.timedOut s e t p).status = "timeout") := by
  have hm := mappedTasks_of_total tasks ports h
  refine ⟨?_, ?_, ?_, ?_⟩
  · rw [execute_batch, hm, List.map_map]
    rfl
  · rw [execute_batch, hm, List.map_map]
    simp
  · intro t p out s e
    exact ⟨rfl, rfl, rfl⟩
  · intro t p s e
    rfl

/-- Witness for C9 (amended): a fully-mapped singleton batch yields one
result, and a timed-out execution records status `"timeout"`. -/
theorem batch_results_per_mapped_task_witness :
    (execute_batch envAllSucceed [taskA] portsGeneral).length = [taskA].length ∧
    (execute_task ProcOutcome.timedOut 0 7 taskA 3456).status = "timeout" :=
  ⟨(batch_results_per_mapped_task envAllSucceed [taskA] portsGeneral (by decide)).2.1,
   (batch_results_per_mapped_task envAllSucceed [taskA] portsGeneral (by decide)).2.2.2
      taskA 3456 0 7⟩

/-- Counterexample to claim C9 as stated: a batch containing one task
whose `ccr_instance` has no entry in the port registry produces zero
`TaskResult`s — the task is skipped with a printed error, so "exactly one
TaskResult per task in the batch" fails. -/
theorem batch_skips_unmapped_task :
    execute_batch envAllSucceed [taskFast] [] = [] ∧ [taskFast].length = 1 :=
  ⟨rfl, rfl⟩

/-! ## Lemmas about the scheduling loop -/

theorem mem_addName {c : List String} {n m : String} :
    m ∈ addName c n ↔ m ∈ c ∨ m = n := by
  unfold addName
  split
  · rename_i h
    have hn : n ∈ c := by simpa using h
    constructor
    · exact Or.inl
    · rintro (hm | rfl)
      · exact hm
      · exact hn
  · simp [List.mem_append, List.mem_singleton]

theorem nodup_addName {c : List String} {n : String} (h : c.Nodup) :
    (addName c n).Nodup := by
  unfold addName
  split
  · exact h
  · rename_i hn
    have hn2 : n ∉ c := by simpa using hn
    simpa [List.nodup_append] using ⟨h, hn2⟩

theorem length_addName_ge {c : List String} {n : String} :
    c.length ≤ (addName c n).length := by
  unfold addName
  split
  · exact Nat.le_refl _
  · simp

theorem length_addName_of_not_mem {c : List String} {n : String} (hn : n ∉ c) :
    (addName c n).length = c.length + 1 := by
  unfold addName
  split
  · rename_i h
    exact absurd (by simpa using h) hn
  · simp

theorem mem_foldl_addName :
    ∀ (l : List TaskDefinition) (c : List String) (m : String),
      (m ∈ l.foldl (fun c t => addName c t.name) c ↔ m ∈ c ∨ ∃ t ∈ l, t.name = m)
  | [], c, m => by simp
  | t :: rest, c, m => by
    rw [List.foldl_cons, mem_foldl_addName rest (addName c t.name) m]
    rw [mem_addName]
    constructor
    · rintro ((hm | rfl) | ⟨u, hu, rfl⟩)
      · exact Or.inl hm
      · exact Or.inr ⟨t, List.mem_cons_self t rest, rfl⟩
      · exact Or.inr ⟨u, List.mem_cons_of_mem t hu, rfl⟩
    · rintro (hm | ⟨u, hu, rfl⟩)
      · exact Or.inl (Or.inl hm)
      · rcases List.mem_cons.1 hu with rfl | hu
        · exact Or.inl (Or.inr rfl)
        · exact Or.inr ⟨u, hu, rfl⟩

theorem nodup_foldl_addName :
    ∀ (l : List TaskDefinition) (c : List String), c.Nodup →
      (l.foldl (fun c t => addName c t.name) c).Nodup
  | [], _, h => h
  | t :: rest, c, h => by
    rw [List.foldl_cons]
    exact nodup_foldl_addName rest (addName c t.name) (nodup_addName h)

theorem length_foldl_addName_ge :
    ∀ (l : List TaskDefinition) (c : List String),
      c.length ≤ (l.foldl (fun c t => addName c t.name) c).length
  | [], _ => Nat.le_refl _
  | t :: rest, c => by
    rw [List.foldl_cons]
    exact Nat.le_trans length_addName_ge (length_foldl_addName_ge rest (addName c t.name))

theorem length_foldl_addName_gt :
    ∀ (l : List TaskDefinition) (c : List String) (t : TaskDefinition),
      t ∈ l → t.name ∉ c →
      c.length < (l.foldl (fun c t => addName c t.name) c).length
  | [], _, _, ht, _ => absurd ht (List.not_mem_nil _)
  | u :: rest, c, t, ht, hn => by
    rw [List.foldl_cons]
    rcases List.mem_cons.1 ht with rfl | ht
    · have h1 : (addName c t.name).length = c.length + 1 := length_addName_of_not_mem hn
      have h2 := length_foldl_addName_ge rest (addName c t.name)
      omega
    · by_cases hu : t.name ∈ addName c u.name
      · have : t.name = u.name := by
          rcases mem_addName.1 hu with hm | hm
          · exact absurd hm hn
          · exact hm
        have h1 : (addName c u.name).length = c.length + 1 :=
          length_addName_of_not_mem (by rwa [this] at hn)
        have h2 := length_foldl_addName_ge rest (addName c u.name)
        omega
      · have h1 := length_foldl_addName_gt rest (addName c u.name) t ht hu
        have h2 : c.length ≤ (addName c u.name).length := length_addName_ge
        omega

theorem mem_readyOf {c : List String} {tasks : List TaskDefinition} {t : TaskDefinition} :
    t ∈ readyOf c tasks ↔ t ∈ tasks ∧ t.name ∉ c ∧ ∀ d ∈ t.dependencies, d ∈ c := by
  simp [readyOf, isReady, List.mem_filter, and_assoc]

theorem iterCompleted_of_ready_empty {tasks : List TaskDefinition} {c : List String}
    (h : readyOf c tasks = []) : ∀ k, iterCompleted tasks k c = c
  | 0 => rfl
  | k + 1 => by
    have hstep : stepCompleted tasks c = c := by
      rw [stepCompleted, h]
      rfl
    rw [iterCompleted, hstep]
    exact iterCompleted_of_ready_empty h k

theorem batchIndexOf_le {n : String} :
    ∀ (bs : List (List TaskDefinition)) (j : Nat) (hj : j < bs.length),
      (∃ u ∈ bs.get ⟨j, hj⟩, u.name = n) → batchIndexOf bs n ≤ j
  | b :: rest, 0, _, hex => by
    have hany : b.any (fun u => u.name == n) = true := by
      obtain ⟨u, hu, rfl⟩ := hex
      exact List.any_eq_true.2 ⟨u, hu, by simp⟩
    simp [batchIndexOf, hany]
  | b :: rest, j + 1, hj, hex => by
    by_cases hany : b.any (fun u => u.name == n) = true
    · simp [batchIndexOf, hany]
    · simp only [batchIndexOf, if_neg hany]
      have := batchIndexOf_le rest j (Nat.lt_of_succ_lt_succ hj) hex
      omega

theorem batchIndexOf_eq {n : String} :
    ∀ (bs : List (List TaskDefinition)) (i : Nat) (hi : i < bs.length),
      (∃ u ∈ bs.get ⟨i, hi⟩, u.name = n) →
      (∀ k (hk : k < bs.length), k < i → ∀ u ∈ bs.get ⟨k, hk⟩, u.name ≠ n) →
      batchIndexOf bs n = i
  | b :: rest, 0, _, hex, _ => by
    have hany : b.any (fun u => u.name == n) = true := by
      obtain ⟨u, hu, rfl⟩ := hex
      exact List.any_eq_true.2 ⟨u, hu, by simp⟩
    simp [batchIndexOf, hany]
  | b :: rest, i + 1, hi, hex, hnone => by
    have hany : b.any (fun u => u.name == n) = false := by
      rw [List.any_eq_false]
      intro u hu
      have := hnone 0 (Nat.succ_pos _) (Nat.succ_pos _) u hu
      simpa using this
    simp only [batchIndexOf, hany, Bool.false_eq_true, if_false]
    have := batchIndexOf_eq rest i (Nat.lt_of_succ_lt_succ hi) hex
      (fun k hk hki u hu => hnone (k + 1) (Nat.succ_lt_succ hk) (Nat.succ_lt_succ hki) u hu)
    omega

theorem depErrors_eq_nil_iff {tasks : List TaskDefinition} :
    depErrors tasks = [] ↔ ∀ t ∈ tasks, ∀ d ∈ t.dependencies, d ∈ taskNames tasks := by
  rw [List.eq_nil_iff_forall_not_mem]
  constructor
  · intro h t ht d hd
    by_contra hnm
    exact h (t.name, d) (mem_depErrors.2 ⟨t, ht, rfl, hd, hnm⟩)
  · rintro h ⟨nm, d⟩ hp
    obtain ⟨t, ht, rfl, hd, hnm⟩ := mem_depErrors.1 hp
    exact hnm (h t ht d hd)

/-- Under a ranking (acyclicity), while uncompleted tasks remain the ready
set is nonempty: a remaining task of minimal rank has all dependencies
completed. -/
theorem readyOf_ne_nil (tasks : List TaskDefinition) (c : List String)
    (hvalid : ∀ t ∈ tasks, ∀ d ∈ t.dependencies, d ∈ taskNames tasks)
    (hnodupN : (taskNames tasks).Nodup)
    (rank : String → Nat)
    (hrank : ∀ t ∈ tasks, ∀ d ∈ t.dependencies, rank d < rank t.name)
    (hcn : c.Nodup)
    (hcs : ∀ n ∈ c, n ∈ taskNames tasks)
    (hlt : c.length < tasks.length) :
    readyOf c tasks ≠ [] := by
  have hrem : ∃ t ∈ tasks, t.name ∉ c := by
    by_contra hall
    push_neg at hall
    have hsub : taskNames tasks ⊆ c := by
      intro n hn
      obtain ⟨t, ht, rfl⟩ := List.mem_map.1 hn
      exact hall t ht
    have hle := nodup_subset_length_le hnodupN hsub
    have hlen : (taskNames tasks).length = tasks.length := by simp [taskNames]
    omega
  obtain ⟨t0, ht0, hn0⟩ := hrem
  have hrem0 : t0 ∈ tasks.filter (fun t => !c.contains t.name) :=
    List.mem_filter.2 ⟨ht0, by simpa using hn0⟩
  obtain ⟨t, htr, hmin⟩ := exists_min_image (fun t => rank t.name)
    (tasks.filter (fun t => !c.contains t.name)) (List.ne_nil_of_mem hrem0)
  obtain ⟨ht, hnc⟩ := List.mem_filter.1 htr
  have hnc2 : t.name ∉ c := by simpa using hnc
  have hdeps : ∀ d ∈ t.dependencies, d ∈ c := by
    intro d hd
    by_contra hdc
    obtain ⟨u, hu, hud⟩ := List.mem_map.1 (hvalid t ht d hd)
    have hur : u ∈ tasks.filter (fun t => !c.contains t.name) :=
      List.mem_filter.2 ⟨hu, by simpa [hud] using hdc⟩
    have h1 := hmin u hur
    have h2 := hrank t ht d hd
    rw [hud] at h1
    omega
  exact List.ne_nil_of_mem (mem_readyOf.2 ⟨ht, hnc2, hdeps⟩)

/-- Once `completed` has at least one entry per task, the names of the
tasks are duplicate-free (the `completed` set never holds duplicates and
holds only task names). -/
theorem names_nodup_of_le (tasks : List TaskDefinition) (c : List String)
    (hcn : c.Nodup) (hcs : ∀ n ∈ c, n ∈ taskNames tasks)
    (hge : tasks.length ≤ c.length) : (taskNames tasks).Nodup := by
  have hsub : c ⊆ (taskNames tasks).dedup := by
    intro x hx
    exact List.mem_dedup.2 (hcs x hx)
  have hle := nodup_subset_length_le hcn hsub
  have hded : (taskNames tasks).dedup.length ≤ (taskNames tasks).length :=
    (List.dedup_sublist _).length_le
  have hlen : (taskNames tasks).length = tasks.length := by simp [taskNames]
  have heq : (taskNames tasks).dedup = taskNames tasks :=
    (List.dedup_sublist _).eq_of_length (by omega)
  exact List.dedup_eq_self.1 heq

/-- A successful run of the loop certifies that the task names were
duplicate-free. -/
theorem schedLoop_ok_names_nodup (tasks : List TaskDefinition) :
    ∀ (fuel : Nat) (c : List String) (acc bs : List (List TaskDefinition)),
      c.Nodup → (∀ n ∈ c, n ∈ taskNames tasks) →
      schedLoop tasks fuel c acc = .ok bs → (taskNames tasks).Nodup
  | 0, c, acc, bs, hcn, hcs, hok => by
    rw [schedLoop] at hok
    split at hok
    · exact absurd hok (by simp)
    · rename_i hge
      exact names_nodup_of_le tasks c hcn hcs (by omega)
  | fuel + 1, c, acc, bs, hcn, hcs, hok => by
    rw [schedLoop] at hok
    split at hok
    · by_cases hre : (readyOf c tasks).isEmpty
      · rw [if_pos hre] at hok
        exact absurd hok (by simp)
      · rw [if_neg hre] at hok
        refine schedLoop_ok_names_nodup tasks fuel _ _ bs
          (nodup_foldl_addName _ _ hcn) ?_ hok
        intro n hn
        rcases (mem_foldl_addName _ _ _).1 hn with h | ⟨u, hu, rfl⟩
        · exact hcs n h
        · exact List.mem_map_of_mem _ (mem_readyOf.1 hu).1
    · rename_i hge
      exact names_nodup_of_le tasks c hcn hcs (by omega)

/-- Soundness of a successful scheduling loop: the appended batches place
every remaining task, respect dependencies across batch boundaries, and
never repeat a task name across batches. -/
theorem schedLoop_ok_spec (tasks : List TaskDefinition)
    (hnodupN : (taskNames tasks).Nodup) :
    ∀ (fuel : Nat) (c : List String) (acc bs : List (List TaskDefinition)),
      c.Nodup → (∀ n ∈ c, n ∈ taskNames tasks) →
      schedLoop tasks fuel c acc = .ok bs →
      ∃ suffix, bs = acc ++ suffix ∧ BatchesSpec tasks c suffix
  | 0, c, acc, bs, hcn, hcs, hok => by
    rw [schedLoop] at hok
    split at hok
    · exact absurd hok (by simp)
    · rename_i hge
      obtain rfl : acc = bs := by injection hok
      refine ⟨[], by simp, ?_, ?_, ?_⟩
      · intro t ht hnc
        exfalso
        have hx : (c ++ [t.name]).Nodup := by
          simp [List.nodup_append, hcn, hnc]
        have hsub : (c ++ [t.name]) ⊆ taskNames tasks := by
          intro x hx2
          rcases List.mem_append.1 hx2 with h | h
          · exact hcs x h
          · rw [List.mem_singleton] at h
            subst h
            exact List.mem_map_of_mem _ ht
        have hle := nodup_subset_length_le hx hsub
        have hlen : (taskNames tasks).length = tasks.length := by simp [taskNames]
        simp only [List.length_append, List.length_singleton] at hle
        omega
      · intro i hi
        simp at hi
      · intro i hi
        simp at hi
  | fuel + 1, c, acc, bs, hcn, hcs, hok => by
    rw [schedLoop] at hok
    split at hok
    · rename_i hlt
      by_cases hre : (readyOf c tasks).isEmpty
      · rw [if_pos hre] at hok
        exact absurd hok (by simp)
      · rw [if_neg hre] at hok
        have hcn2 : ((readyOf c tasks).foldl (fun c t => addName c t.name) c).Nodup :=
          nodup_foldl_addName _ _ hcn
        have hcs2 : ∀ n ∈ (readyOf c tasks).foldl (fun c t => addName c t.name) c,
            n ∈ taskNames tasks := by
          intro n hn
          rcases (mem_foldl_addName _ _ _).1 hn with h | ⟨u, hu, rfl⟩
          · exact hcs n h
          · exact List.mem_map_of_mem _ (mem_readyOf.1 hu).1
        obtain ⟨suffix, rfl, hspec⟩ :=
          schedLoop_ok_spec tasks hnodupN fuel _ _ bs hcn2 hcs2 hok
        have hinj : ∀ ⦃x⦄, x ∈ tasks → ∀ ⦃y⦄, y ∈ tasks → x.name = y.name → x = y :=
          List.inj_on_of_nodup_map (by simpa [taskNames] using hnodupN)
        refine ⟨readyOf c tasks :: suffix, by simp, ?_, ?_, ?_⟩
        · intro t ht hnc
          by_cases hc2m : t.name ∈ (readyOf c tasks).foldl (fun c t => addName c t.name) c
          · have hex : ∃ u ∈ readyOf c tasks, u.name = t.name := by
              rcases (mem_foldl_addName _ _ _).1 hc2m with h | h
              · exact absurd h hnc
              · exact h
            obtain ⟨u, hu, hun⟩ := hex
            have hut : u = t := hinj (mem_readyOf.1 hu).1 ht hun
            subst hut
            exact ⟨0, by simp, hu⟩
          · obtain ⟨i, hi, hmem⟩ := hspec.1 t ht hc2m
            exact ⟨i + 1, by simpa using Nat.succ_lt_succ hi, hmem⟩
        · intro i hi t htm
          cases i with
          | zero =>
            obtain ⟨ht, hnc, hdeps⟩ := mem_readyOf.1 htm
            exact ⟨ht, hnc, fun d hd => Or.inl (hdeps d hd)⟩
          | succ i =>
            have hi2 : i < suffix.length := Nat.lt_of_succ_lt_succ (by simpa using hi)
            obtain ⟨ht, hnc2, hdeps⟩ := hspec.2.1 i hi2 t htm
            refine ⟨ht, fun hmem => hnc2 ((mem_foldl_addName _ _ _).2 (Or.inl hmem)), ?_⟩
            intro d hd
            rcases hdeps d hd with hdc2 | ⟨j, hj, hji, u, hu, hun⟩
            · rcases (mem_foldl_addName _ _ _).1 hdc2 with h | ⟨u, hu, rfl⟩
              · exact Or.inl h
              · exact Or.inr ⟨0, by simp, Nat.succ_pos _, u, hu, rfl⟩
            · exact Or.inr ⟨j + 1, by simpa using Nat.succ_lt_succ hj,
                Nat.succ_lt_succ hji, u, hu, hun⟩
        · intro i hi j hj hij t htm u hum
          cases i with
          | zero =>
            cases j with
            | zero => omega
            | succ j =>
              have ht2 : t.name ∈ (readyOf c tasks).foldl (fun c t => addName c t.name) c :=
                (mem_foldl_addName _ _ _).2 (Or.inr ⟨t, htm, rfl⟩)
              have hj2 : j < suffix.length := Nat.lt_of_succ_lt_succ (by simpa using hj)
              have hu2 : u.name ∉ (readyOf c tasks).foldl (fun c t => addName c t.name) c :=
                (hspec.2.1 j hj2 u hum).2.1
              intro hEq
              rw [hEq] at ht2
              exact hu2 ht2
          | succ i =>
            cases j with
            | zero => omega
            | succ j =>
              have hi2 : i < suffix.length := Nat.lt_of_succ_lt_succ (by simpa using hi)
              have hj2 : j < suffix.length := Nat.lt_of_succ_lt_succ (by simpa using hj)
              exact hspec.2.2 i hi2 j hj2 (Nat.lt_of_succ_lt_succ hij) t htm u hum
    · rename_i hge
      obtain rfl : acc = bs := by injection hok
      refine ⟨[], by simp, ?_, ?_, ?_⟩
      · intro t ht hnc
        exfalso
        have hx : (c ++ [t.name]).Nodup := by
          simp [List.nodup_append, hcn, hnc]
        have hsub : (c ++ [t.name]) ⊆ taskNames tasks := by
          intro x hx2
          rcases List.mem_append.1 hx2 with h | h
          · exact hcs x h
          · rw [List.mem_singleton] at h
            subst h
            exact List.mem_map_of_mem _ ht
        have hle := nodup_subset_length_le hx hsub
        have hlen : (taskNames tasks).length = tasks.length := by simp [taskNames]
        simp only [List.length_append, List.length_singleton] at hle
        omega
      · intro i hi
        simp at hi
      · intro i hi
        simp at hi

/-- With valid references, duplicate-free names and a ranking, the
scheduling loop succeeds whenever the fuel covers the remaining tasks. -/
theorem schedLoop_ok_of_acyclic (tasks : List TaskDefinition)
    (hvalid : ∀ t ∈ tasks, ∀ d ∈ t.dependencies, d ∈ taskNames tasks)
    (hnodupN : (taskNames tasks).Nodup)
    (rank : String → Nat)
    (hrank : ∀ t ∈ tasks, ∀ d ∈ t.dependencies, rank d < rank t.name) :
    ∀ (fuel : Nat) (c : List String) (acc : List (List TaskDefinition)),
      c.Nodup → (∀ n ∈ c, n ∈ taskNames tasks) → tasks.length ≤ fuel + c.length →
      ∃ bs, schedLoop tasks fuel c acc = .ok bs
  | 0, c, acc, hcn, hcs, hf => by
    rw [schedLoop]
    rw [if_neg (by omega)]
    exact ⟨acc, rfl⟩
  | fuel + 1, c, acc, hcn, hcs, hf => by
    rw [schedLoop]
    by_cases hlt : c.length < tasks.length
    · rw [if_pos hlt]
      have hready : readyOf c tasks ≠ [] :=
        readyOf_ne_nil tasks c hvalid hnodupN rank hrank hcn hcs hlt
      rw [if_neg (by simpa [List.isEmpty_iff] using hready)]
      obtain ⟨t, htr⟩ := List.exists_mem_of_ne_nil _ hready
      have hgrow : c.length <
          ((readyOf c tasks).foldl (fun c t => addName c t.name) c).length :=
        length_foldl_addName_gt _ _ t htr (mem_readyOf.1 htr).2.1
      refine schedLoop_ok_of_acyclic tasks hvalid hnodupN rank hrank fuel _ _
        (nodup_foldl_addName _ _ hcn) ?_ (by omega)
      intro n hn
      rcases (mem_foldl_addName _ _ _).1 hn with h | ⟨u, hu, rfl⟩
      · exact hcs n h
      · exact List.mem_map_of_mem _ (mem_readyOf.1 hu).1
    · rw [if_neg hlt]
      exact ⟨acc, rfl⟩

/-- Dichotomy for the scheduling loop with sufficient fuel: it either
succeeds, or fails with the circular-dependency error naming exactly the
task names still uncompleted at the point where the ready set is empty. -/
theorem schedLoop_error_form (tasks : List TaskDefinition) :
    ∀ (fuel : Nat) (c : List String) (acc : List (List TaskDefinition)),
      tasks.length ≤ fuel + c.length →
      (∃ bs, schedLoop tasks fuel c acc = .ok bs) ∨
      (schedLoop tasks fuel c acc =
          .error (.cycle ((tasks.filter
            (fun t => !(iterCompleted tasks fuel c).contains t.name)).map (·.name))) ∧
        readyOf (iterCompleted tasks fuel c) tasks = [] ∧
        (iterCompleted tasks fuel c).length < tasks.length)
  | 0, c, acc, hf => by
    rw [schedLoop]
    rw [if_neg (by omega)]
    exact Or.inl ⟨acc, rfl⟩
  | fuel + 1, c, acc, hf => by
    rw [schedLoop]
    by_cases hlt : c.length < tasks.length
    · rw [if_pos hlt]
      by_cases hre : (readyOf c tasks).isEmpty
      · rw [if_pos hre]
        have hempty : readyOf c tasks = [] := by simpa [List.isEmpty_iff] using hre
        have hstep : stepCompleted tasks c = c := by
          rw [stepCompleted, hempty]
          rfl
        have hiter : iterCompleted tasks (fuel + 1) c = c := by
          rw [iterCompleted, hstep]
          exact iterCompleted_of_ready_empty hempty fuel
        rw [hiter]
        exact Or.inr ⟨rfl, hempty, hlt⟩
      · rw [if_neg hre]
        have hready : readyOf c tasks ≠ [] := by
          intro h
          rw [h] at hre
          exact hre rfl
        obtain ⟨t, htr⟩ := List.exists_mem_of_ne_nil _ hready
        have hgrow : c.length <
            ((readyOf c tasks).foldl (fun c t => addName c t.name) c).length :=
          length_foldl_addName_gt _ _ t htr (mem_readyOf.1 htr).2.1
        have hiter : iterCompleted tasks (fuel + 1) c =
            iterCompleted tasks fuel (stepCompleted tasks c) := by
          rw [iterCompleted]
        rw [hiter]
        have hc2 : stepCompleted tasks c =
            (readyOf c tasks).foldl (fun c t => addName c t.name) c := rfl
        rw [hc2]
        exact schedLoop_error_form tasks fuel _ (acc ++ [readyOf c tasks]) (by omega)
    · rw [if_neg hlt]
      exact Or.inl ⟨acc, rfl⟩

/-- Claim C1, amended: for every task list with pairwise-distinct names
whose dependency ids all resolve and whose dependency graph is acyclic,
`get_execution_order` returns batches in which every task appears, batches
contain only the given tasks, and every dependency of a task appears in a
batch of strictly smaller index than the task's own batch. -/
theorem scheduler_topological_order (tasks : List TaskDefinition)
    (hnodupN : (taskNames tasks).Nodup)
    (hvalid : ∀ t ∈ tasks, ∀ d ∈ t.dependencies, d ∈ taskNames tasks)
    (hacyc : Acyclic tasks) :
    ∃ bs, (get_execution_order tasks).2 = .ok bs ∧
      (∀ t ∈ tasks, ∃ i, ∃ hi : i < bs.length, t ∈ bs.get ⟨i, hi⟩ ∧
        ∀ d ∈ t.dependencies, ∃ j, ∃ hj : j < bs.length, j < i ∧
          ∃ u ∈ bs.get ⟨j, hj⟩, u.name = d) ∧
      (∀ i (hi : i < bs.length), ∀ t ∈ bs.get ⟨i, hi⟩, t ∈ tasks) := by
  obtain ⟨rank, hrank⟩ := hacyc
  have hdep0 : depErrors tasks = [] := depErrors_eq_nil_iff.2 hvalid
  obtain ⟨bs, hok⟩ := schedLoop_ok_of_acyclic tasks hvalid hnodupN rank hrank
    tasks.length [] [] List.nodup_nil (by simp) (by omega)
  obtain ⟨suffix, heq, hspec⟩ := schedLoop_ok_spec tasks hnodupN tasks.length [] [] bs
    List.nodup_nil (by simp) hok
  rw [List.nil_append] at heq
  rw [heq] at hok
  refine ⟨suffix, ?_, ?_, ?_⟩
  · simp only [get_execution_order, validate_dependencies, hdep0, List.isEmpty_nil, if_pos]
    exact hok
  · intro t ht
    obtain ⟨i, hi, hmem⟩ := hspec.1 t ht (by simp)
    refine ⟨i, hi, hmem, ?_⟩
    intro d hd
    obtain ⟨-, -, hdeps⟩ := hspec.2.1 i hi t hmem
    rcases hdeps d hd with hdc | ⟨j, hj, hji, u, hu, hun⟩
    · simp at hdc
    · exact ⟨j, hj, hji, u, hu, hun⟩
  · intro i hi t htm
    exact (hspec.2.1 i hi t htm).1

/-- Witness for C1 (amended) at `[A, B]` with `B` depending on `A`. -/
theorem scheduler_topological_order_witness :
    ∃ bs, (get_execution_order [taskA, taskB]).2 = .ok bs ∧
      (∀ t ∈ [taskA, taskB], ∃ i, ∃ hi : i < bs.length, t ∈ bs.get ⟨i, hi⟩ ∧
        ∀ d ∈ t.dependencies, ∃ j, ∃ hj : j < bs.length, j < i ∧
          ∃ u ∈ bs.get ⟨j, hj⟩, u.name = d) ∧
      (∀ i (hi : i < bs.length), ∀ t ∈ bs.get ⟨i, hi⟩, t ∈ [taskA, taskB]) :=
  scheduler_topological_order [taskA, taskB] (by decide) (by decide)
    ⟨fun s => if s = "B" then 1 else 0, by decide⟩

/-- Counterexample to claim C1 as stated: two no-dependency tasks sharing
the name `A` have resolving dependency ids and an acyclic (empty)
dependency graph, yet `get_execution_order` fails (with a spurious
circular-dependency error) instead of returning batches — the claim needs
the additional hypothesis that task names are pairwise distinct. -/
theorem scheduler_duplicate_name_counterexample :
    (∀ t ∈ [taskA, taskA2], ∀ d ∈ t.dependencies, d ∈ taskNames [taskA, taskA2]) ∧
    Acyclic [taskA, taskA2] ∧
    ¬ ∃ bs, (get_execution_order [taskA, taskA2]).2 = .ok bs := by
  refine ⟨by decide, ⟨fun _ => 0, by decide⟩, ?_⟩
  rintro ⟨bs, hbs⟩
  have hval : (get_execution_order [taskA, taskA2]).2 = .error (.cycle []) := rfl
  rw [hval] at hbs
  exact Except.noConfusion hbs

/-- Claim C4: for every task list with valid dependency references whose
dependency graph has a cycle, `get_execution_order` fails with the
circular-dependency error naming exactly the task ids still unscheduled at
the point where the ready set becomes empty (`stuckRemaining`), and at
that point the ready set is indeed empty while unscheduled tasks remain. -/
theorem scheduler_cycle_error (tasks : List TaskDefinition)
    (hvalid : ∀ t ∈ tasks, ∀ d ∈ t.dependencies, d ∈ taskNames tasks)
    (hcyc : ¬ Acyclic tasks) :
    (get_execution_order tasks).2 = .error (.cycle (stuckRemaining tasks)) ∧
    readyOf (stuckCompleted tasks) tasks = [] ∧
    (stuckCompleted tasks).length < tasks.length := by
  have hdep0 : depErrors tasks = [] := depErrors_eq_nil_iff.2 hvalid
  rcases schedLoop_error_form tasks tasks.length [] [] (by omega) with
    ⟨bs, hok⟩ | ⟨herr, hready, hlen⟩
  · exfalso
    have hnodupN := schedLoop_ok_names_nodup tasks tasks.length [] [] bs
      List.nodup_nil (by simp) hok
    obtain ⟨suffix, heq, hspec⟩ := schedLoop_ok_spec tasks hnodupN tasks.length [] [] bs
      List.nodup_nil (by simp) hok
    apply hcyc
    refine ⟨batchIndexOf suffix, ?_⟩
    intro t ht d hd
    obtain ⟨i, hi, hmem⟩ := hspec.1 t ht (by simp)
    obtain ⟨-, -, hdeps⟩ := hspec.2.1 i hi t hmem
    rcases hdeps d hd with hdc | ⟨j, hj, hji, u, hu, hun⟩
    · simp at hdc
    · have hrd : batchIndexOf suffix d ≤ j := batchIndexOf_le suffix j hj ⟨u, hu, hun⟩
      have hrt : batchIndexOf suffix t.name = i := by
        refine batchIndexOf_eq suffix i hi ⟨t, hmem, rfl⟩ ?_
        intro k hk hki v hv
        exact hspec.2.2 k hk i hi hki v hv t hmem
      omega
  · have hstuck : iterCompleted tasks tasks.length [] = stuckCompleted tasks := rfl
    rw [hstuck] at herr hready hlen
    refine ⟨?_, hready, hlen⟩
    simp only [get_execution_order, validate_dependencies, hdep0, List.isEmpty_nil, if_pos]
    exact herr

/-- Witness for C4 at the two-cycle `A ↔ B`: the run fails with the cycle
error naming both remaining task ids. -/
theorem scheduler_cycle_error_witness :
    ((get_execution_order [taskAcyc, taskBcyc]).2 =
        .error (.cycle (stuckRemaining [taskAcyc, taskBcyc])) ∧
      readyOf (stuckCompleted [taskAcyc, taskBcyc]) [taskAcyc, taskBcyc] = [] ∧
      (stuckCompleted [taskAcyc, taskBcyc]).length < [taskAcyc, taskBcyc].length) ∧
    stuckRemaining [taskAcyc, taskBcyc] = ["A", "B"] :=
  ⟨scheduler_cycle_error [taskAcyc, taskBcyc] (by decide) (by
      rintro ⟨rank, h⟩
      have h1 : rank "B" < rank "A" := h taskAcyc (by decide) "B" (by decide)
      have h2 : rank "A" < rank "B" := h taskBcyc (by decide) "A" (by decide)
      omega),
   by decide⟩

end ZoSwarm
